import Mathlib

/-!
# VotoFlow: verification of the aggregation / filter / classification pipeline

Shallow embedding of the algorithmic core of the VotoFlow dashboard:

* the data model (`VoteRecord`, `LocationData`, `FilterState`, `ViewMode`);
* the filter engine and analytics of `App.tsx` (`filteredData`, party/candidate
  tallies, top-5 lists, the simulated live-stream tick);
* the map classifier of `VoteMap` (`stats`, `getVisuals`, marker radius);
* the aggregator (modelled from the spec, its source file is not in the tree).

JavaScript numbers are embedded as `ℤ` for vote counts and `ℚ` for the derived
averages/ratios; `Math.sqrt` is embedded as `Real.sqrt`.  Party/candidate
tallies (JS objects used as maps) are embedded as association lists in key
insertion order, which is the iteration order `Object.entries` delivers.
-/

/-- One raw CSV row (`types.ts` shape used by the aggregator). -/
structure VoteRecord where
  locationName : String
  parentLocation : String
  lat : ℚ
  lng : ℚ
  partyName : String
  candidateName : String
  voteCount : ℤ
  deriving DecidableEq

/-- One aggregated polling location (`LocationData` in `types.ts`).
`parties` / `candidates` are association lists in key insertion order,
mirroring a JS object used as a map. -/
structure LocationData where
  name : String
  parentLocation : String
  lat : ℚ
  lng : ℚ
  totalVotes : ℤ
  parties : List (String × ℤ)
  candidates : List (String × ℤ)
  winningParty : String
  deriving DecidableEq

/-- Operator-selected filters (`FilterState` in `types.ts`); the string
`"ALL"` is the sentinel meaning "no constraint". -/
structure FilterState where
  minVotes : ℤ
  party : String
  candidate : String
  deriving DecidableEq

/-- The three classification modes (`ViewMode` in `types.ts`). -/
inductive ViewMode where
  | heatmap
  | party
  | audit
  deriving DecidableEq

/-- `(m[k] || 0)`: value stored under `k`, `0` when the key is absent. -/
def lookupD (m : List (String × ℤ)) (k : String) : ℤ :=
  ((m.find? (fun e => e.1 = k)).map Prod.snd).getD 0

/-- The initial filter state of `App.tsx`:
`{ minVotes: 0, party: 'ALL', candidate: 'ALL' }`. -/
def defaultFilters : FilterState :=
  { minVotes := 0, party := "ALL", candidate := "ALL" }

/-- The `filteredData` memo of `App.tsx`: successively filter by party
(skipped on the `"ALL"` sentinel), by candidate (likewise), and by the
minimum-vote threshold. -/
def filteredData (filters : FilterState) (aggregatedData : List LocationData) :
    List LocationData :=
  let d1 := if filters.party = "ALL" then aggregatedData
    else aggregatedData.filter (fun d => 0 < lookupD d.parties filters.party)
  let d2 := if filters.candidate = "ALL" then d1
    else d1.filter (fun d => 0 < lookupD d.candidates filters.candidate)
  d2.filter (fun d => filters.minVotes ≤ d.totalVotes)

/-- The conjunction of the three filter predicates, used to relate
`filteredData` to a single `List.filter` pass. -/
def keepLoc (filters : FilterState) (d : LocationData) : Bool :=
  (decide (filters.party = "ALL") || decide (0 < lookupD d.parties filters.party)) &&
  (decide (filters.candidate = "ALL") || decide (0 < lookupD d.candidates filters.candidate)) &&
  decide (filters.minVotes ≤ d.totalVotes)

/-- `filteredData` with the three predicates applied in the opposite order
(threshold first, then candidate, then party); used to express that the
result does not depend on the order of application. -/
def filteredDataRev (filters : FilterState) (aggregatedData : List LocationData) :
    List LocationData :=
  let d1 := aggregatedData.filter (fun d => filters.minVotes ≤ d.totalVotes)
  let d2 := if filters.candidate = "ALL" then d1
    else d1.filter (fun d => 0 < lookupD d.candidates filters.candidate)
  if filters.party = "ALL" then d2
  else d2.filter (fun d => 0 < lookupD d.parties filters.party)

/-- The `stats` memo of `VoteMap`: maximum and average of `totalVotes`
over the visible set, with the hard-coded fallback `{max: 100, avg: 0}`
for an empty set. -/
structure Stats where
  max : ℚ
  avg : ℚ
  deriving DecidableEq

/-- `Math.max(...data.map(d => d.totalVotes))` together with
`data.reduce((acc, c) => acc + c.totalVotes, 0) / data.length`. -/
def stats : List LocationData → Stats
  | [] => { max := 100, avg := 0 }
  | d :: ds =>
    { max := (ds.map (fun l => (l.totalVotes : ℚ))).foldl max (d.totalVotes : ℚ),
      avg := ((d :: ds).map (fun l => (l.totalVotes : ℚ))).sum / ((d :: ds).length : ℚ) }

/-- Heat-mode colour bucketing of `getVisuals`:
`Math.min(loc.totalVotes / stats.max, 1)` compared against four thresholds.
The `mx = 0` branch spells out IEEE division by zero: `0 / 0` is NaN (every
comparison false, so the default colour stands) and `t / 0` with `t > 0` is
`+∞` (above every threshold). -/
def heatColor (t mx : ℚ) : String :=
  if mx = 0 then
    if 0 < t then "#7f1d1d" else "#fbbf24"
  else
    let intensity := min (t / mx) 1
    if intensity > 0.8 then "#7f1d1d"
    else if intensity > 0.6 then "#dc2626"
    else if intensity > 0.4 then "#ea580c"
    else if intensity > 0.2 then "#f59e0b"
    else "#fbbf24"

/-- The fixed party → colour table of `VoteMap`, in declaration order. -/
def PARTY_COLORS : List (String × String) :=
  [("PARTIDO CENTRO DEMOCRÁTICO", "#0ea5e9"),
   ("PACTO HISTÓRICO", "#9333ea"),
   ("PARTIDO LIBERAL", "#ef4444"),
   ("PARTIDO CONSERVADOR", "#1d4ed8"),
   ("ALIANZA VERDE", "#22c55e"),
   ("DEFAULT", "#64748b")]

/-- `s.includes(sub)`: substring containment. -/
def jsIncludes (s sub : String) : Bool :=
  decide (sub.toList <:+: s.toList)

/-- Helper for `jsSplitSpace`: walk the characters, cutting a word at every
space; `acc` holds the current word reversed. -/
def splitSpaceAux : List Char → List Char → List String
  | [], acc => [String.mk acc.reverse]
  | c :: cs, acc =>
    if c = ' ' then String.mk acc.reverse :: splitSpaceAux cs []
    else splitSpaceAux cs (c :: acc)

/-- JS `s.split(' ')`: cut at every single space, keeping empty pieces
(so `"" ↦ [""]` and `"a " ↦ ["a", ""]`, as in JS). -/
def jsSplitSpace (s : String) : List String :=
  splitSpaceAux s.toList []

/-- `party.includes(k.split(' ')[1])` for one table key `k`.  When `k` has no
second space-separated word, `k.split(' ')[1]` is `undefined` and JS coerces
it to the string `"undefined"` inside `includes`. -/
def matchesParty (party k : String) : Bool :=
  match (jsSplitSpace k).get? 1 with
  | some tok => jsIncludes party tok
  | none => jsIncludes party "undefined"

/-- Party-mode colour selection of `getVisuals`:
`Object.keys(PARTY_COLORS).find(k => party.includes(k.split(' ')[1])) || "DEFAULT"`
then `PARTY_COLORS[matchedKey] || PARTY_COLORS["DEFAULT"]`, where
`party = loc.winningParty || "DEFAULT"` (the empty string is falsy). -/
def partyColor (winningParty : String) : String :=
  let party := if winningParty = "" then "DEFAULT" else winningParty
  let matchedKey := (((PARTY_COLORS.map Prod.fst).find? (fun k => matchesParty party k)).getD "DEFAULT")
  (((PARTY_COLORS.find? (fun e => e.1 = matchedKey)).map Prod.snd).getD "#64748b")

/-- Colour, fill opacity and stroke flag produced by `getVisuals` in
`VoteMap` (the marker radius is embedded separately as `getRadius`, since
the heat radius involves `Math.sqrt`).  The defaults
`color = '#fbbf24'`, `opacity = 0.6`, `stroke = false` are overridden per
mode exactly as in the source. -/
structure Visuals where
  color : String
  opacity : ℚ
  stroke : Bool
  deriving DecidableEq

/-- `getVisuals` of `VoteMap`, colour/opacity/stroke part. -/
def getVisuals (viewMode : ViewMode) (st : Stats) (loc : LocationData) : Visuals :=
  match viewMode with
  | .heatmap =>
    { color := heatColor (loc.totalVotes : ℚ) st.max, opacity := 0.6, stroke := false }
  | .party =>
    { color := partyColor loc.winningParty, opacity := 0.8, stroke := false }
  | .audit =>
    if (loc.totalVotes : ℚ) > st.avg * 1.8 then
      { color := "#ef4444", opacity := 0.9, stroke := true }
    else
      { color := "#10b981", opacity := 0.4, stroke := false }

/-- `getVisuals` of `VoteMap`, marker-radius part: the default
`4 + Math.sqrt(loc.totalVotes) * 0.8`, overridden to the uniform `8` in
party mode and to `15` / `5` in audit mode. -/
noncomputable def getRadius (viewMode : ViewMode) (st : Stats) (loc : LocationData) : ℝ :=
  match viewMode with
  | .heatmap => 4 + Real.sqrt (loc.totalVotes : ℝ) * 0.8
  | .party => 8
  | .audit => if (loc.totalVotes : ℚ) > st.avg * 1.8 then 15 else 5

/-- A minimal location used to instantiate theorems on concrete data. -/
def sampleLoc (nm : String) (t : ℤ) : LocationData :=
  { name := nm, parentLocation := "Medellín", lat := 0, lng := 0,
    totalVotes := t, parties := [], candidates := [], winningParty := "" }

/-- `m[k] = (m[k] || 0) + v`: add `v` to the entry stored under `k`, keeping
its position (JS objects keep the first-insertion position of a key), or
append a fresh entry at the end when the key is absent. -/
def bump : List (String × ℤ) → String → ℤ → List (String × ℤ)
  | [], k, v => [(k, v)]
  | e :: rest, k, v =>
    if e.1 = k then (k, e.2 + v) :: rest else e :: bump rest k v

/-- Sum of the values of an association list (`Object.values(m)` summed). -/
def sumVals (m : List (String × ℤ)) : ℤ :=
  (m.map Prod.snd).sum

/-- Modelled from the spec: the winning party of an aggregated location is
"the party with the highest summed votes at this location", ties broken by
first-encountered insertion order.  The function itself
(`aggregateByLocation` in `utils/csvParser.ts`) is not in the source tree. -/
def winningOf : List (String × ℤ) → String
  | [] => ""
  | p :: ps => (ps.foldl (fun best q => if best.2 < q.2 then q else best) p).1

/-- Modelled from the spec: fold one `VoteRecord` into the accumulated
location list — find the group with the same location key (name + parent
location), add the record's `voteCount` to its `totalVotes` and to its
party and candidate tallies; start a fresh group when no key matches. -/
def addRecord : List LocationData → VoteRecord → List LocationData
  | [], r =>
    [{ name := r.locationName, parentLocation := r.parentLocation,
       lat := r.lat, lng := r.lng, totalVotes := r.voteCount,
       parties := [(r.partyName, r.voteCount)],
       candidates := [(r.candidateName, r.voteCount)],
       winningParty := "" }]
  | l :: ls, r =>
    if l.name = r.locationName ∧ l.parentLocation = r.parentLocation then
      { l with totalVotes := l.totalVotes + r.voteCount,
               parties := bump l.parties r.partyName r.voteCount,
               candidates := bump l.candidates r.candidateName r.voteCount } :: ls
    else
      l :: addRecord ls r

/-- Modelled from the spec: `aggregate(records) -> sequence of LocationData`
(the source file `utils/csvParser.ts` is not in the tree).  Groups records
by location key, sums vote counts into `totalVotes` and the party/candidate
mappings, then derives `winningParty` for every group. -/
def aggregateByLocation (records : List VoteRecord) : List LocationData :=
  (records.foldl addRecord []).map
    (fun l => { l with winningParty := winningOf l.parties })

/-- One pass of the `analytics` memo of `App.tsx`: sum every mapping entry
of every visible location into a totals object, skipping entries that fail
the active party/candidate filter
(`if (filters.party === 'ALL' || filters.party === p)`). -/
def tally (pass : String → Bool) (proj : LocationData → List (String × ℤ))
    (locs : List LocationData) : List (String × ℤ) :=
  locs.foldl
    (fun acc loc =>
      (proj loc).foldl (fun acc2 e => if pass e.1 then bump acc2 e.1 e.2 else acc2) acc)
    []

/-- The party-filter test of the `analytics` memo. -/
def passParty (filters : FilterState) (p : String) : Bool :=
  decide (filters.party = "ALL") || decide (filters.party = p)

/-- The candidate-filter test of the `analytics` memo. -/
def passCandidate (filters : FilterState) (c : String) : Bool :=
  decide (filters.candidate = "ALL") || decide (filters.candidate = c)

/-- `partyTotals` of the `analytics` memo. -/
def partyTotals (filters : FilterState) (locs : List LocationData) :
    List (String × ℤ) :=
  tally (passParty filters) (fun l => l.parties) locs

/-- `candidateTotals` of the `analytics` memo. -/
def candidateTotals (filters : FilterState) (locs : List LocationData) :
    List (String × ℤ) :=
  tally (passCandidate filters) (fun l => l.candidates) locs

/-- `Object.entries(totals).sort((a, b) => b[1] - a[1])`: a stable sort,
descending by value (`a` precedes `b` when the comparator is `≤ 0`,
i.e. `b.2 ≤ a.2`; ties keep insertion order because JS `sort` is stable). -/
def jsSortDesc (l : List (String × ℤ)) : List (String × ℤ) :=
  l.mergeSort (fun a b => decide (b.2 ≤ a.2))

/-- `topParties` of the `analytics` memo: sort descending, keep 5. -/
def topParties (filters : FilterState) (locs : List LocationData) :
    List (String × ℤ) :=
  (jsSortDesc (partyTotals filters locs)).take 5

/-- `topCandidates` of the `analytics` memo. -/
def topCandidates (filters : FilterState) (locs : List LocationData) :
    List (String × ℤ) :=
  (jsSortDesc (candidateTotals filters locs)).take 5

/-- One location's update in the live-simulation tick of `App.tsx`:
`if (Math.random() > 0.7) { totalVotes += Math.floor(Math.random() * 5) }`.
`r.1` and `r.2` are the two `Math.random()` draws (each in `[0, 1)`). -/
def tickLoc (r : ℚ × ℚ) (loc : LocationData) : LocationData :=
  if r.1 > 0.7 then { loc with totalVotes := loc.totalVotes + ⌊r.2 * 5⌋ }
  else loc

/-- The tick's `prev.map (loc => ...)`, with `rnd i` the random draws used
for the `i`-th location. -/
def streamTickFrom (rnd : ℕ → ℚ × ℚ) : ℕ → List LocationData → List LocationData
  | _, [] => []
  | i, loc :: rest => tickLoc (rnd i) loc :: streamTickFrom rnd (i + 1) rest

/-- One tick of the simulated E-14 live stream of `App.tsx`. -/
def streamTick (rnd : ℕ → ℚ × ℚ) (locs : List LocationData) : List LocationData :=
  streamTickFrom rnd 0 locs

/-- The three-location audit example of the spec (totals 10, 10, 50). -/
def auditDemo : List LocationData :=
  [sampleLoc "A" 10, sampleLoc "B" 10, sampleLoc "C" 50]

/-! ## Aggregator (C2) -/

theorem sumVals_cons (e : String × ℤ) (m : List (String × ℤ)) :
    sumVals (e :: m) = e.2 + sumVals m := by
  simp [sumVals]

theorem sumVals_bump (m : List (String × ℤ)) (k : String) (v : ℤ) :
    sumVals (bump m k v) = sumVals m + v := by
  induction m with
  | nil => simp [bump, sumVals]
  | cons e rest ih =>
    by_cases h : e.1 = k
    · rw [bump, if_pos h, sumVals_cons, sumVals_cons]
      ring
    · rw [bump, if_neg h, sumVals_cons, sumVals_cons, ih]
      ring

/-- The per-location invariant of the aggregation: the total equals both
mapping sums. -/
def locInv (l : LocationData) : Prop :=
  l.totalVotes = sumVals l.parties ∧ l.totalVotes = sumVals l.candidates

theorem addRecord_inv (acc : List LocationData) (r : VoteRecord)
    (h : ∀ loc ∈ acc, locInv loc) : ∀ loc ∈ addRecord acc r, locInv loc := by
  induction acc with
  | nil =>
    intro loc hloc
    rcases List.mem_singleton.mp hloc with rfl
    constructor <;> simp [locInv, sumVals]
  | cons l ls ih =>
    intro loc hloc
    rw [addRecord] at hloc
    split at hloc
    · rcases List.mem_cons.mp hloc with rfl | hmem
      · have hl := h l (List.mem_cons_self l ls)
        refine ⟨?_, ?_⟩
        · show l.totalVotes + r.voteCount = sumVals (bump l.parties r.partyName r.voteCount)
          rw [sumVals_bump, ← hl.1]
        · show l.totalVotes + r.voteCount = sumVals (bump l.candidates r.candidateName r.voteCount)
          rw [sumVals_bump, ← hl.2]
      · exact h loc (List.mem_cons_of_mem _ hmem)
    · rcases List.mem_cons.mp hloc with rfl | hmem
      · exact h loc (List.mem_cons_self loc ls)
      · exact ih (fun x hx => h x (List.mem_cons_of_mem _ hx)) loc hmem

theorem addRecord_sum (acc : List LocationData) (r : VoteRecord) :
    ((addRecord acc r).map (fun l => l.totalVotes)).sum
      = (acc.map (fun l => l.totalVotes)).sum + r.voteCount := by
  induction acc with
  | nil => simp [addRecord]
  | cons l ls ih =>
    rw [addRecord]
    split
    · simp only [List.map_cons, List.sum_cons]
      ring
    · simp only [List.map_cons, List.sum_cons, ih]
      ring

theorem foldl_addRecord_inv (records : List VoteRecord) :
    ∀ acc, (∀ loc ∈ acc, locInv loc) →
      ∀ loc ∈ records.foldl addRecord acc, locInv loc := by
  induction records with
  | nil => intro acc h; exact h
  | cons r rs ih =>
    intro acc h
    exact ih (addRecord acc r) (addRecord_inv acc r h)

theorem foldl_addRecord_sum (records : List VoteRecord) :
    ∀ acc, ((records.foldl addRecord acc).map (fun l => l.totalVotes)).sum
      = (acc.map (fun l => l.totalVotes)).sum + (records.map (fun r => r.voteCount)).sum := by
  induction records with
  | nil => intro acc; simp
  | cons r rs ih =>
    intro acc
    rw [List.foldl_cons, ih (addRecord acc r), addRecord_sum]
    simp only [List.map_cons, List.sum_cons]
    ring

/-- C2: every aggregated location's `totalVotes` equals the sum of its
party mapping and the sum of its candidate mapping, and the grand total of
the aggregate equals the sum of `voteCount` over the input records.
(`aggregateByLocation` is modelled from the spec; its source file is not in
the tree.) -/
theorem aggregate_sums (records : List VoteRecord) :
    (∀ loc ∈ aggregateByLocation records,
        loc.totalVotes = sumVals loc.parties ∧ loc.totalVotes = sumVals loc.candidates)
    ∧ ((aggregateByLocation records).map (fun l => l.totalVotes)).sum
        = (records.map (fun r => r.voteCount)).sum := by
  constructor
  · intro loc hloc
    rcases List.mem_map.mp hloc with ⟨pre, hpre, rfl⟩
    exact foldl_addRecord_inv records [] (by simp) pre hpre
  · unfold aggregateByLocation
    rw [List.map_map]
    have hcomp : ((fun l => l.totalVotes) ∘
        (fun l => { l with winningParty := winningOf l.parties }))
        = fun (l : LocationData) => l.totalVotes := rfl
    rw [hcomp]
    simpa using foldl_addRecord_sum records []

/-- A concrete three-record input (two locations) for the C2 witness. -/
def demoRecords : List VoteRecord :=
  [{ locationName := "L1", parentLocation := "P", lat := 0, lng := 0,
     partyName := "PA", candidateName := "CA", voteCount := 5 },
   { locationName := "L1", parentLocation := "P", lat := 0, lng := 0,
     partyName := "PB", candidateName := "CB", voteCount := 3 },
   { locationName := "L2", parentLocation := "P", lat := 0, lng := 0,
     partyName := "PA", candidateName := "CA", voteCount := 7 }]

/-- The aggregate of `demoRecords` for location `L1`. -/
def demoAggLoc : LocationData :=
  { name := "L1", parentLocation := "P", lat := 0, lng := 0, totalVotes := 8,
    parties := [("PA", 5), ("PB", 3)], candidates := [("CA", 5), ("CB", 3)],
    winningParty := "PA" }

/-- Witness for C2 on `demoRecords`. -/
theorem aggregate_sums_witness :
    ((aggregateByLocation demoRecords).map (fun l => l.totalVotes)).sum = 15
    ∧ demoAggLoc.totalVotes = sumVals demoAggLoc.parties :=
  ⟨((aggregate_sums demoRecords).2).trans (by decide),
   ((aggregate_sums demoRecords).1 demoAggLoc (by decide)).1⟩

/-! ## Filter engine -/

theorem filteredData_eq_filter (F : FilterState) (S : List LocationData) :
    filteredData F S = S.filter (keepLoc F) := by
  unfold filteredData
  by_cases hp : F.party = "ALL" <;> by_cases hc : F.candidate = "ALL" <;>
    simp only [hp, hc, if_true, if_false, ite_true, ite_false, eq_self_iff_true,
      List.filter_filter] <;>
    refine List.filter_congr (fun d _ => ?_) <;>
    simp [keepLoc, hp, hc, Bool.and_comm, Bool.and_left_comm, Bool.and_assoc]

theorem filteredDataRev_eq_filter (F : FilterState) (S : List LocationData) :
    filteredDataRev F S = S.filter (keepLoc F) := by
  unfold filteredDataRev
  by_cases hp : F.party = "ALL" <;> by_cases hc : F.candidate = "ALL" <;>
    simp only [hp, hc, if_true, if_false, ite_true, ite_false, eq_self_iff_true,
      List.filter_filter] <;>
    refine List.filter_congr (fun d _ => ?_) <;>
    simp [keepLoc, hp, hc, Bool.and_comm, Bool.and_left_comm, Bool.and_assoc]

/-- C3: a location appears in the filter output iff it is in the input and
satisfies all three predicates: the party predicate (sentinel `"ALL"` or a
strictly positive entry for the selected party), the candidate predicate
(likewise), and the minimum-vote threshold `minVotes ≤ totalVotes`. -/
theorem filteredData_mem_iff (F : FilterState) (S : List LocationData)
    (loc : LocationData) :
    loc ∈ filteredData F S ↔
      loc ∈ S
      ∧ (F.party = "ALL" ∨ 0 < lookupD loc.parties F.party)
      ∧ (F.candidate = "ALL" ∨ 0 < lookupD loc.candidates F.candidate)
      ∧ F.minVotes ≤ loc.totalVotes := by
  rw [filteredData_eq_filter]
  simp [List.mem_filter, keepLoc, and_assoc]

/-- C7: the filter is idempotent, preserves the relative order of its input
(the output is a sublist of the input), and does not depend on the order in
which the three predicates are applied. -/
theorem filteredData_idem_sublist_comm (F : FilterState) (S : List LocationData) :
    filteredData F (filteredData F S) = filteredData F S
    ∧ (filteredData F S).Sublist S
    ∧ filteredDataRev F S = filteredData F S := by
  refine ⟨?_, ?_, ?_⟩
  · rw [filteredData_eq_filter F S, filteredData_eq_filter, List.filter_filter]
    exact List.filter_congr (fun d _ => by simp)
  · rw [filteredData_eq_filter]
    exact List.filter_sublist S
  · rw [filteredData_eq_filter, filteredDataRev_eq_filter]

/-- C9: with the initial filter state (`minVotes = 0`, both sentinels on),
filtering returns the input unchanged whenever every `totalVotes` is
non-negative. -/
theorem filteredData_default_id (S : List LocationData)
    (h : ∀ loc ∈ S, 0 ≤ loc.totalVotes) :
    filteredData defaultFilters S = S := by
  rw [filteredData_eq_filter]
  refine List.filter_eq_self.mpr (fun loc hloc => ?_)
  simp [keepLoc, defaultFilters]
  exact h loc hloc

/-- Witness for C9 at a concrete input. -/
theorem filteredData_default_id_witness :
    filteredData defaultFilters auditDemo = auditDemo :=
  filteredData_default_id auditDemo (by decide)

/-! ## Classifier: visible-set statistics -/

theorem le_foldl_max (a : ℚ) (l : List ℚ) : a ≤ l.foldl max a := by
  induction l generalizing a with
  | nil => exact le_refl a
  | cons x xs ih => exact le_trans (le_max_left a x) (ih (max a x))

theorem mem_le_foldl_max {b : ℚ} {l : List ℚ} (a : ℚ) (hb : b ∈ l) :
    b ≤ l.foldl max a := by
  induction l generalizing a with
  | nil => cases hb
  | cons x xs ih =>
    rcases List.mem_cons.mp hb with rfl | hb'
    · exact le_trans (le_max_right a b) (le_foldl_max _ xs)
    · exact ih (max a x) hb'

theorem mem_le_stats_max {loc : LocationData} {data : List LocationData}
    (h : loc ∈ data) : (loc.totalVotes : ℚ) ≤ (stats data).max := by
  cases data with
  | nil => cases h
  | cons d ds =>
    rcases List.mem_cons.mp h with rfl | h'
    · exact le_foldl_max _ _
    · exact mem_le_foldl_max _ (List.mem_map.mpr ⟨loc, h', rfl⟩)

theorem foldl_max_zeros {l : List ℚ} (hl : ∀ x ∈ l, x = 0) :
    l.foldl max (0 : ℚ) = 0 := by
  induction l with
  | nil => rfl
  | cons x xs ih =>
    have hx : x = 0 := hl x (List.mem_cons_self x xs)
    have : ∀ y ∈ xs, y = (0 : ℚ) := fun y hy => hl y (List.mem_cons_of_mem _ hy)
    simpa [hx] using ih this

theorem stats_max_of_all_zero {data : List LocationData} (hne : data ≠ [])
    (hz : ∀ loc ∈ data, loc.totalVotes = 0) : (stats data).max = 0 := by
  cases data with
  | nil => exact absurd rfl hne
  | cons d ds =>
    have hd : d.totalVotes = 0 := hz d (List.mem_cons_self d ds)
    have hcast : ((d.totalVotes : ℚ)) = 0 := by rw [hd]; norm_num
    show (ds.map (fun l => (l.totalVotes : ℚ))).foldl max ((d.totalVotes : ℚ)) = 0
    rw [hcast]
    refine foldl_max_zeros (fun x hx => ?_)
    rcases List.mem_map.mp hx with ⟨l, hl, rfl⟩
    have : l.totalVotes = 0 := hz l (List.mem_cons_of_mem _ hl)
    rw [this]; norm_num

/-! ## Classifier: audit mode (C1) -/

theorem getVisuals_audit_eq (st : Stats) (loc : LocationData) :
    getVisuals ViewMode.audit st loc =
      if (loc.totalVotes : ℚ) > st.avg * 1.8 then
        { color := "#ef4444", opacity := 0.9, stroke := true }
      else
        { color := "#10b981", opacity := 0.4, stroke := false } := rfl

theorem auditDemo_flags :
    (getVisuals ViewMode.audit (stats auditDemo) (sampleLoc "C" 50)).stroke = true
    ∧ (getVisuals ViewMode.audit (stats auditDemo) (sampleLoc "A" 10)).stroke = false
    ∧ (getVisuals ViewMode.audit (stats auditDemo) (sampleLoc "B" 10)).stroke = false := by
  refine ⟨?_, ?_, ?_⟩ <;> (simp [getVisuals, stats, auditDemo, sampleLoc]; norm_num)

/-- C1: in audit mode a location of the visible set is flagged (alert
colour, radius 15, opacity 0.9, stroke/emphasize on) iff its total is
strictly greater than 1.8 times the visible-set average; on the example
set with totals 10, 10, 50 only the 50-vote location is flagged. -/
theorem audit_flags_iff (data : List LocationData) (loc : LocationData)
    (hmem : loc ∈ data) :
    (((getVisuals ViewMode.audit (stats data) loc).stroke = true) ↔
      (loc.totalVotes : ℚ) > (stats data).avg * 1.8)
    ∧ (((getVisuals ViewMode.audit (stats data) loc).color = "#ef4444") ↔
      (loc.totalVotes : ℚ) > (stats data).avg * 1.8)
    ∧ (((getVisuals ViewMode.audit (stats data) loc).opacity = 0.9) ↔
      (loc.totalVotes : ℚ) > (stats data).avg * 1.8)
    ∧ ((getRadius ViewMode.audit (stats data) loc = 15) ↔
      (loc.totalVotes : ℚ) > (stats data).avg * 1.8)
    ∧ (¬ ((loc.totalVotes : ℚ) > (stats data).avg * 1.8) →
        (getVisuals ViewMode.audit (stats data) loc).color = "#10b981"
        ∧ (getVisuals ViewMode.audit (stats data) loc).opacity = 0.4
        ∧ getRadius ViewMode.audit (stats data) loc = 5)
    ∧ ((getVisuals ViewMode.audit (stats auditDemo) (sampleLoc "C" 50)).stroke = true
        ∧ (getVisuals ViewMode.audit (stats auditDemo) (sampleLoc "A" 10)).stroke = false
        ∧ (getVisuals ViewMode.audit (stats auditDemo) (sampleLoc "B" 10)).stroke = false) := by
  by_cases hA : (loc.totalVotes : ℚ) > (stats data).avg * 1.8
  · refine ⟨?_, ?_, ?_, ?_, fun h => absurd hA h, auditDemo_flags⟩ <;>
      simp [getVisuals_audit_eq, getRadius, if_pos hA, hA]
  · refine ⟨?_, ?_, ?_, ?_, fun _ => ⟨?_, ?_, ?_⟩, auditDemo_flags⟩ <;>
      simp [getVisuals_audit_eq, getRadius, if_neg hA, hA] <;> norm_num

/-- Witness for C1: the 50-vote location of the example set is flagged. -/
theorem audit_flags_iff_witness :
    (getVisuals ViewMode.audit (stats auditDemo) (sampleLoc "C" 50)).stroke = true :=
  ((audit_flags_iff auditDemo (sampleLoc "C" 50)
      (List.Mem.tail _ (List.Mem.tail _ (List.Mem.head _)))).2.2.2.2.2).1

/-! ## Classifier: heat mode (C5, C10) -/

/-- C10: heat-mode classification is total on an all-zero visible set
(where `totalVotes / max` is `0 / 0`): every location still gets the
default lightest colour with the base radius `4` and base opacity `0.6`. -/
theorem heat_total_on_all_zero (data : List LocationData) (hne : data ≠ [])
    (hz : ∀ loc ∈ data, loc.totalVotes = 0) :
    ∀ loc ∈ data,
      getVisuals ViewMode.heatmap (stats data) loc =
        { color := "#fbbf24", opacity := 0.6, stroke := false }
      ∧ getRadius ViewMode.heatmap (stats data) loc = 4 := by
  intro loc hloc
  have hmax : (stats data).max = 0 := stats_max_of_all_zero hne hz
  have ht : loc.totalVotes = 0 := hz loc hloc
  constructor
  · show ({ color := heatColor (loc.totalVotes : ℚ) (stats data).max,
            opacity := 0.6, stroke := false } : Visuals) = _
    rw [hmax, ht]
    norm_num [heatColor]
  · show 4 + Real.sqrt (loc.totalVotes : ℝ) * 0.8 = 4
    rw [ht]
    norm_num

/-- Witness for C10 on a concrete singleton all-zero set. -/
theorem heat_total_on_all_zero_witness :
    getVisuals ViewMode.heatmap (stats [sampleLoc "Z" 0]) (sampleLoc "Z" 0) =
      { color := "#fbbf24", opacity := 0.6, stroke := false } :=
  (heat_total_on_all_zero [sampleLoc "Z" 0] (by simp)
    (by simp [sampleLoc]) (sampleLoc "Z" 0) (List.Mem.head _)).1

/-- Counterexample for C5 as stated: in the all-zero visible set the single
location's total equals the visible maximum, yet its colour is the default
lightest band, not the top intensity band. -/
theorem heat_top_band_counterexample :
    ((sampleLoc "Z" 0).totalVotes : ℚ) = (stats [sampleLoc "Z" 0]).max
    ∧ (getVisuals ViewMode.heatmap (stats [sampleLoc "Z" 0]) (sampleLoc "Z" 0)).color
        ≠ "#7f1d1d" := by
  constructor
  · simp [stats, sampleLoc]
  · show heatColor ((sampleLoc "Z" 0).totalVotes : ℚ) (stats [sampleLoc "Z" 0]).max ≠ _
    have h1 : (stats [sampleLoc "Z" 0]).max = 0 := by simp [stats, sampleLoc]
    have h2 : ((sampleLoc "Z" 0).totalVotes : ℚ) = 0 := by simp [sampleLoc]
    rw [h1, h2]
    norm_num [heatColor]
    decide

/-- C5 (amended): in heat mode `emphasize` is always false and, when the
visible maximum is positive, the colour band is determined by the ratio
`totalVotes / max` against the four thresholds; in particular, with a
positive maximum a location whose total equals the maximum falls in the top
band, and a zero-vote location always falls in the lowest band. -/
theorem heat_bands (data : List LocationData) (loc : LocationData)
    (hmem : loc ∈ data) :
    (getVisuals ViewMode.heatmap (stats data) loc).stroke = false
    ∧ (0 < (stats data).max →
        (getVisuals ViewMode.heatmap (stats data) loc).color =
          (if 0.8 < (loc.totalVotes : ℚ) / (stats data).max then "#7f1d1d"
           else if 0.6 < (loc.totalVotes : ℚ) / (stats data).max then "#dc2626"
           else if 0.4 < (loc.totalVotes : ℚ) / (stats data).max then "#ea580c"
           else if 0.2 < (loc.totalVotes : ℚ) / (stats data).max then "#f59e0b"
           else "#fbbf24"))
    ∧ (0 < (stats data).max → (loc.totalVotes : ℚ) = (stats data).max →
        (getVisuals ViewMode.heatmap (stats data) loc).color = "#7f1d1d")
    ∧ (loc.totalVotes = 0 →
        (getVisuals ViewMode.heatmap (stats data) loc).color = "#fbbf24") := by
  have hle : (loc.totalVotes : ℚ) ≤ (stats data).max := mem_le_stats_max hmem
  have hcol : (getVisuals ViewMode.heatmap (stats data) loc).color =
      heatColor (loc.totalVotes : ℚ) (stats data).max := rfl
  refine ⟨rfl, ?_, ?_, ?_⟩
  · intro hmax
    have hne : (stats data).max ≠ 0 := ne_of_gt hmax
    have hmin : min ((loc.totalVotes : ℚ) / (stats data).max) 1 =
        (loc.totalVotes : ℚ) / (stats data).max :=
      min_eq_left ((div_le_one hmax).mpr hle)
    rw [hcol, heatColor, if_neg hne]
    simp only [hmin]
  · intro hmax heq
    have hne : (stats data).max ≠ 0 := ne_of_gt hmax
    have hone : (loc.totalVotes : ℚ) / (stats data).max = 1 := by
      rw [heq]; exact div_self hne
    rw [hcol, heatColor, if_neg hne]
    simp only [hone]
    norm_num
  · intro ht
    have ht' : ((loc.totalVotes : ℚ)) = 0 := by rw [ht]; norm_num
    rw [hcol, ht', heatColor]
    by_cases hne : (stats data).max = 0
    · rw [if_pos hne]; norm_num
    · rw [if_neg hne]
      have : min ((0 : ℚ) / (stats data).max) 1 = 0 := by
        rw [zero_div]
        exact min_eq_left zero_le_one
      simp only [this]
      norm_num

/-- Witness for C5 (amended) on a concrete set: the zero-vote location of a
two-location set gets the lowest band. -/
theorem heat_bands_witness :
    (getVisuals ViewMode.heatmap (stats [sampleLoc "H" 5, sampleLoc "L" 0])
      (sampleLoc "L" 0)).color = "#fbbf24" :=
  (heat_bands [sampleLoc "H" 5, sampleLoc "L" 0] (sampleLoc "L" 0)
    (List.Mem.tail _ (List.Mem.head _))).2.2.2 rfl

/-! ## Classifier: party mode (C8) -/

/-- C8: party mode uses a uniform radius (8 for every location), keeps
`emphasize` off, raises the opacity to 0.8 (above heat mode's 0.6), and
picks the colour by matching `winningParty` against the colour table via
substring containment on the second space-separated token of each key,
falling back to the default slate colour when no key matches. -/
theorem party_mode_visuals (st : Stats) (loc : LocationData) :
    getRadius ViewMode.party st loc = 8
    ∧ (getVisuals ViewMode.party st loc).stroke = false
    ∧ (getVisuals ViewMode.party st loc).opacity = 0.8
    ∧ (getVisuals ViewMode.heatmap st loc).opacity < (getVisuals ViewMode.party st loc).opacity
    ∧ (getVisuals ViewMode.party st loc).color = partyColor loc.winningParty
    ∧ (∀ k, (PARTY_COLORS.map Prod.fst).find?
          (fun k' => matchesParty (if loc.winningParty = "" then "DEFAULT" else loc.winningParty) k')
            = some k →
        (getVisuals ViewMode.party st loc).color =
          (((PARTY_COLORS.find? (fun e => e.1 = k)).map Prod.snd).getD "#64748b"))
    ∧ ((PARTY_COLORS.map Prod.fst).find?
          (fun k' => matchesParty (if loc.winningParty = "" then "DEFAULT" else loc.winningParty) k')
            = none →
        (getVisuals ViewMode.party st loc).color = "#64748b") := by
  refine ⟨rfl, rfl, rfl, ?_, rfl, ?_, ?_⟩
  · show (0.6 : ℚ) < 0.8
    norm_num
  · intro k hk
    show partyColor loc.winningParty = _
    simp only [partyColor]
    rw [hk]
    rfl
  · intro hk
    show partyColor loc.winningParty = _
    simp only [partyColor]
    rw [hk]
    rfl

/-- Witness for C8: a location won by `"PARTIDO LIBERAL"` is coloured with
that party's table colour. -/
theorem party_mode_visuals_witness :
    (getVisuals ViewMode.party (stats [])
      { sampleLoc "L" 1 with winningParty := "PARTIDO LIBERAL" }).color = "#ef4444" :=
  ((party_mode_visuals (stats [])
      { sampleLoc "L" 1 with winningParty := "PARTIDO LIBERAL" }).2.2.2.2.2.1
    "PARTIDO LIBERAL" (by decide)).trans (by decide)

/-! ## Simulated live stream (C6) -/

theorem tickLoc_totalVotes_le (r : ℚ × ℚ) (hr : 0 ≤ r.2) (loc : LocationData) :
    loc.totalVotes ≤ (tickLoc r loc).totalVotes := by
  unfold tickLoc
  split
  · have hfloor : (0 : ℤ) ≤ ⌊r.2 * 5⌋ := by
      rw [Int.le_floor]
      push_cast
      have : (0 : ℚ) ≤ r.2 * 5 := mul_nonneg hr (by norm_num)
      simpa using this
    simpa using hfloor
  · exact le_refl _

theorem tickLoc_fields (r : ℚ × ℚ) (loc : LocationData) :
    (tickLoc r loc).name = loc.name
    ∧ (tickLoc r loc).parentLocation = loc.parentLocation
    ∧ (tickLoc r loc).lat = loc.lat
    ∧ (tickLoc r loc).lng = loc.lng
    ∧ (tickLoc r loc).parties = loc.parties
    ∧ (tickLoc r loc).candidates = loc.candidates
    ∧ (tickLoc r loc).winningParty = loc.winningParty := by
  unfold tickLoc
  split <;> exact ⟨rfl, rfl, rfl, rfl, rfl, rfl, rfl⟩

theorem streamTickFrom_spec (rnd : ℕ → ℚ × ℚ) (hr : ∀ i, 0 ≤ (rnd i).2) :
    ∀ (locs : List LocationData) (n : ℕ),
      (streamTickFrom rnd n locs).length = locs.length
      ∧ (streamTickFrom rnd n locs).map (fun l => (l.name, l.parentLocation))
          = locs.map (fun l => (l.name, l.parentLocation))
      ∧ ∀ i : ℕ, ∀ l' ∈ (streamTickFrom rnd n locs)[i]?, ∀ l ∈ locs[i]?,
          l.totalVotes ≤ l'.totalVotes
          ∧ l'.name = l.name ∧ l'.parentLocation = l.parentLocation
          ∧ l'.lat = l.lat ∧ l'.lng = l.lng
          ∧ l'.parties = l.parties ∧ l'.candidates = l.candidates
          ∧ l'.winningParty = l.winningParty := by
  intro locs
  induction locs with
  | nil =>
    intro n
    refine ⟨rfl, rfl, fun i l' hl' => ?_⟩
    simp [streamTickFrom] at hl'
  | cons loc rest ih =>
    intro n
    have hfields := tickLoc_fields (rnd n) loc
    refine ⟨?_, ?_, ?_⟩
    · show (tickLoc (rnd n) loc :: streamTickFrom rnd (n + 1) rest).length = _
      simp [(ih (n + 1)).1]
    · show (tickLoc (rnd n) loc :: streamTickFrom rnd (n + 1) rest).map _ = _
      simp only [List.map_cons, (ih (n + 1)).2.1, hfields.1, hfields.2.1]
    · intro i
      have hcons : streamTickFrom rnd n (loc :: rest)
          = tickLoc (rnd n) loc :: streamTickFrom rnd (n + 1) rest := rfl
      rw [hcons]
      match i with
      | 0 =>
        intro l' hl' l hl
        simp only [List.getElem?_cons_zero, Option.mem_some_iff] at hl' hl
        subst hl'
        subst hl
        exact ⟨tickLoc_totalVotes_le (rnd n) (hr n) loc, hfields⟩
      | Nat.succ j =>
        intro l' hl' l hl
        simp only [List.getElem?_cons_succ] at hl' hl
        exact (ih (n + 1)).2.2 j l' hl' l hl

/-- C6: a live-stream tick (for any random draws with non-negative second
draw, as `Math.random()` yields) never decreases any location's
`totalVotes`, keeps the list of location keys unchanged, and leaves every
field other than `totalVotes` (including the party and candidate mappings)
untouched. -/
theorem stream_tick_spec (rnd : ℕ → ℚ × ℚ) (locs : List LocationData)
    (hr : ∀ i, 0 ≤ (rnd i).2) :
    (streamTick rnd locs).length = locs.length
    ∧ (streamTick rnd locs).map (fun l => (l.name, l.parentLocation))
        = locs.map (fun l => (l.name, l.parentLocation))
    ∧ ∀ i : ℕ, ∀ l' ∈ (streamTick rnd locs)[i]?, ∀ l ∈ locs[i]?,
        l.totalVotes ≤ l'.totalVotes
        ∧ l'.name = l.name ∧ l'.parentLocation = l.parentLocation
        ∧ l'.lat = l.lat ∧ l'.lng = l.lng
        ∧ l'.parties = l.parties ∧ l'.candidates = l.candidates
        ∧ l'.winningParty = l.winningParty :=
  streamTickFrom_spec rnd hr locs 0

/-- Witness for C6 with concrete draws on the example set. -/
theorem stream_tick_spec_witness :
    (streamTick (fun _ => ((1 : ℚ), (0 : ℚ))) auditDemo).length = auditDemo.length
    ∧ (streamTick (fun _ => ((1 : ℚ), (0 : ℚ))) auditDemo).map
        (fun l => (l.name, l.parentLocation))
      = auditDemo.map (fun l => (l.name, l.parentLocation)) :=
  ⟨(stream_tick_spec (fun _ => ((1 : ℚ), (0 : ℚ))) auditDemo (fun _ => le_refl 0)).1,
   (stream_tick_spec (fun _ => ((1 : ℚ), (0 : ℚ))) auditDemo (fun _ => le_refl 0)).2.1⟩

/-! ## Analytics: top-5 leaderboards (C4) -/

theorem descLe_trans (a b c : String × ℤ) :
    decide (b.2 ≤ a.2) = true → decide (c.2 ≤ b.2) = true →
    decide (c.2 ≤ a.2) = true := by
  simp only [decide_eq_true_eq]
  exact fun h1 h2 => le_trans h2 h1

theorem descLe_total (a b : String × ℤ) :
    (decide (b.2 ≤ a.2) || decide (a.2 ≤ b.2)) = true := by
  simp only [Bool.or_eq_true, decide_eq_true_eq]
  exact le_total b.2 a.2

theorem jsSortDesc_pairwise (l : List (String × ℤ)) :
    (jsSortDesc l).Pairwise (fun a b => b.2 ≤ a.2) :=
  (List.sorted_mergeSort descLe_trans descLe_total l).imp
    (fun h => of_decide_eq_true h)

theorem jsSortDesc_perm (l : List (String × ℤ)) : List.Perm (jsSortDesc l) l :=
  List.mergeSort_perm l _

/-- Stability of the JS sort: the subsequence of entries holding any fixed
value is untouched, so ties keep their first-seen relative order. -/
theorem jsSortDesc_filter_eq (l : List (String × ℤ)) (v : ℤ) :
    (jsSortDesc l).filter (fun e => e.2 = v) = l.filter (fun e => e.2 = v) := by
  have hpw : (l.filter (fun e => e.2 = v)).Pairwise
      (fun a b : String × ℤ => decide (b.2 ≤ a.2) = true) := by
    refine List.pairwise_of_forall_mem_list (fun a ha b hb => ?_)
    have ha2 : a.2 = v := by simpa using (List.mem_filter.mp ha).2
    have hb2 : b.2 = v := by simpa using (List.mem_filter.mp hb).2
    simp [ha2, hb2]
  have hsub : (l.filter (fun e => e.2 = v)).Sublist (jsSortDesc l) :=
    List.sublist_mergeSort descLe_trans descLe_total hpw (List.filter_sublist l)
  have h1 : (l.filter (fun e => e.2 = v)).filter (fun e => e.2 = v)
      = l.filter (fun e => e.2 = v) := by
    refine List.filter_eq_self.mpr (fun a ha => (List.mem_filter.mp ha).2)
  have h2 : (l.filter (fun e => e.2 = v)).Sublist
      ((jsSortDesc l).filter (fun e => e.2 = v)) := by
    have := hsub.filter (fun e => decide (e.2 = v))
    rwa [h1] at this
  have h3 : ((jsSortDesc l).filter (fun e => e.2 = v)).length
      = (l.filter (fun e => e.2 = v)).length :=
    ((jsSortDesc_perm l).filter _).length_eq
  exact (h2.eq_of_length h3.symm).symm

theorem bump_pass (P : String → Prop) (k : String) (v : ℤ) :
    ∀ (m : List (String × ℤ)), (∀ e ∈ m, P e.1) → P k →
      ∀ e ∈ bump m k v, P e.1 := by
  intro m
  induction m with
  | nil =>
    intro _ hk e he
    rcases List.mem_singleton.mp he with rfl
    exact hk
  | cons e0 rest ih =>
    intro hm hk e he
    rw [bump] at he
    split at he
    · rcases List.mem_cons.mp he with rfl | hmem
      · exact hk
      · exact hm e (List.mem_cons_of_mem _ hmem)
    · rcases List.mem_cons.mp he with rfl | hmem
      · exact hm e (List.mem_cons_self _ _)
      · exact ih (fun x hx => hm x (List.mem_cons_of_mem _ hx)) hk e hmem

theorem bump_nonneg (k : String) (v : ℤ) (hv : 0 ≤ v) :
    ∀ (m : List (String × ℤ)), (∀ e ∈ m, 0 ≤ e.2) →
      ∀ e ∈ bump m k v, 0 ≤ e.2 := by
  intro m
  induction m with
  | nil =>
    intro _ e he
    rcases List.mem_singleton.mp he with rfl
    exact hv
  | cons e0 rest ih =>
    intro hm e he
    rw [bump] at he
    split at he
    · rcases List.mem_cons.mp he with rfl | hmem
      · exact add_nonneg (hm e0 (List.mem_cons_self _ _)) hv
      · exact hm e (List.mem_cons_of_mem _ hmem)
    · rcases List.mem_cons.mp he with rfl | hmem
      · exact hm e (List.mem_cons_self _ _)
      · exact ih (fun x hx => hm x (List.mem_cons_of_mem _ hx)) e hmem

theorem foldlBump_pass (pass : String → Bool) (entries : List (String × ℤ)) :
    ∀ acc, (∀ e ∈ acc, pass e.1 = true) →
      ∀ e ∈ entries.foldl
          (fun a e2 => if pass e2.1 then bump a e2.1 e2.2 else a) acc,
        pass e.1 = true := by
  induction entries with
  | nil => intro acc h; exact h
  | cons e0 rest ih =>
    intro acc h
    rw [List.foldl_cons]
    cases hp : pass e0.1 with
    | false => simpa [hp] using ih acc h
    | true =>
      have hbump : ∀ e ∈ bump acc e0.1 e0.2, pass e.1 = true :=
        bump_pass (fun s => pass s = true) e0.1 e0.2 acc h hp
      simpa [hp] using ih (bump acc e0.1 e0.2) hbump

theorem foldlBump_nonneg (pass : String → Bool) (entries : List (String × ℤ))
    (hent : ∀ e ∈ entries, 0 ≤ e.2) :
    ∀ acc, (∀ e ∈ acc, 0 ≤ e.2) →
      ∀ e ∈ entries.foldl
          (fun a e2 => if pass e2.1 then bump a e2.1 e2.2 else a) acc,
        0 ≤ e.2 := by
  induction entries with
  | nil => intro acc h; exact h
  | cons e0 rest ih =>
    intro acc h
    have hrest : ∀ e ∈ rest, 0 ≤ e.2 := fun e he => hent e (List.mem_cons_of_mem _ he)
    rw [List.foldl_cons]
    cases hp : pass e0.1 with
    | false => simpa [hp] using ih hrest acc h
    | true =>
      have hbump : ∀ e ∈ bump acc e0.1 e0.2, 0 ≤ e.2 :=
        bump_nonneg e0.1 e0.2 (hent e0 (List.mem_cons_self _ _)) acc h
      simpa [hp] using ih hrest (bump acc e0.1 e0.2) hbump

theorem foldlBump_sum (pass : String → Bool) (entries : List (String × ℤ)) :
    ∀ acc, sumVals (entries.foldl
        (fun a e2 => if pass e2.1 then bump a e2.1 e2.2 else a) acc)
      = sumVals acc + ((entries.filter (fun e => pass e.1)).map Prod.snd).sum := by
  induction entries with
  | nil => intro acc; simp
  | cons e0 rest ih =>
    intro acc
    rw [List.foldl_cons, List.filter_cons]
    cases hp : pass e0.1 with
    | false => simpa [hp] using ih acc
    | true =>
      have := ih (bump acc e0.1 e0.2)
      rw [sumVals_bump] at this
      simp only [hp, if_true, ite_true, List.map_cons, List.sum_cons, this]
      ring

theorem tally_pass (pass : String → Bool) (proj : LocationData → List (String × ℤ)) :
    ∀ (locs : List LocationData) acc, (∀ e ∈ acc, pass e.1 = true) →
      ∀ e ∈ locs.foldl
          (fun acc2 loc => (proj loc).foldl
            (fun a e2 => if pass e2.1 then bump a e2.1 e2.2 else a) acc2) acc,
        pass e.1 = true := by
  intro locs
  induction locs with
  | nil => intro acc h; exact h
  | cons loc rest ih =>
    intro acc h
    rw [List.foldl_cons]
    exact ih _ (foldlBump_pass pass (proj loc) acc h)

theorem tally_nonneg (pass : String → Bool) (proj : LocationData → List (String × ℤ)) :
    ∀ (locs : List LocationData), (∀ loc ∈ locs, ∀ e ∈ proj loc, 0 ≤ e.2) →
      ∀ acc, (∀ e ∈ acc, 0 ≤ e.2) →
      ∀ e ∈ locs.foldl
          (fun acc2 loc => (proj loc).foldl
            (fun a e2 => if pass e2.1 then bump a e2.1 e2.2 else a) acc2) acc,
        0 ≤ e.2 := by
  intro locs
  induction locs with
  | nil => intro _ acc h; exact h
  | cons loc rest ih =>
    intro hlocs acc h
    rw [List.foldl_cons]
    refine ih (fun l hl => hlocs l (List.mem_cons_of_mem _ hl)) _
      (foldlBump_nonneg pass (proj loc) (hlocs loc (List.mem_cons_self _ _)) acc h)

theorem tally_sum (pass : String → Bool) (proj : LocationData → List (String × ℤ)) :
    ∀ (locs : List LocationData) acc,
      sumVals (locs.foldl
          (fun acc2 loc => (proj loc).foldl
            (fun a e2 => if pass e2.1 then bump a e2.1 e2.2 else a) acc2) acc)
        = sumVals acc
          + (locs.map (fun loc =>
              (((proj loc).filter (fun e => pass e.1)).map Prod.snd).sum)).sum := by
  intro locs
  induction locs with
  | nil => intro acc; simp
  | cons loc rest ih =>
    intro acc
    rw [List.foldl_cons, ih, foldlBump_sum]
    simp only [List.map_cons, List.sum_cons]
    ring

theorem topTake_pairwise (l : List (String × ℤ)) :
    ((jsSortDesc l).take 5).Pairwise (fun a b => b.2 ≤ a.2) :=
  (jsSortDesc_pairwise l).sublist (List.take_sublist 5 _)

theorem topTake_mem (l : List (String × ℤ)) {e : String × ℤ}
    (he : e ∈ (jsSortDesc l).take 5) : e ∈ l :=
  ((jsSortDesc_perm l).mem_iff).mp (List.mem_of_mem_take he)

theorem topTake_filter_sublist (l : List (String × ℤ)) (v : ℤ) :
    (((jsSortDesc l).take 5).filter (fun e => e.2 = v)).Sublist
      (l.filter (fun e => e.2 = v)) := by
  have h := (List.take_sublist 5 (jsSortDesc l)).filter (fun e => decide (e.2 = v))
  rwa [jsSortDesc_filter_eq] at h

theorem topTake_sum_le (l : List (String × ℤ)) (hn : ∀ e ∈ l, 0 ≤ e.2) :
    (((jsSortDesc l).take 5).map Prod.snd).sum ≤ sumVals l := by
  have hsplit : ((jsSortDesc l).map Prod.snd).sum
      = (((jsSortDesc l).take 5).map Prod.snd).sum
        + (((jsSortDesc l).drop 5).map Prod.snd).sum := by
    conv_lhs => rw [← List.take_append_drop 5 (jsSortDesc l)]
    rw [List.map_append, List.sum_append]
  have hperm : ((jsSortDesc l).map Prod.snd).sum = sumVals l :=
    ((jsSortDesc_perm l).map Prod.snd).sum_eq
  have hdrop : 0 ≤ (((jsSortDesc l).drop 5).map Prod.snd).sum := by
    refine List.sum_nonneg (fun x hx => ?_)
    rcases List.mem_map.mp hx with ⟨e, he, rfl⟩
    exact hn e (((jsSortDesc_perm l).mem_iff).mp (List.drop_subset 5 _ he))
  have := hsplit ▸ hperm
  omega

/-- C4: `summarize` (the `analytics` memo) returns at most five parties and
five candidates, each list sorted non-increasing by summed value with ties
kept in first-seen key order (the filtered subsequence at any fixed value
is a subsequence of the accumulation order); when a specific party
(candidate) filter is active only that key contributes; and with no party
filter the top-5 party sums are bounded by the total votes of the set
(given the aggregator invariant and non-negative tallies). -/
theorem summarize_top5 (F : FilterState) (locs : List LocationData) :
    ((topParties F locs).length ≤ 5 ∧ (topCandidates F locs).length ≤ 5)
    ∧ ((topParties F locs).Pairwise (fun a b => b.2 ≤ a.2)
       ∧ (topCandidates F locs).Pairwise (fun a b => b.2 ≤ a.2))
    ∧ (∀ v : ℤ,
        ((topParties F locs).filter (fun e => e.2 = v)).Sublist
          ((partyTotals F locs).filter (fun e => e.2 = v))
        ∧ ((topCandidates F locs).filter (fun e => e.2 = v)).Sublist
          ((candidateTotals F locs).filter (fun e => e.2 = v)))
    ∧ (F.party ≠ "ALL" → ∀ e ∈ topParties F locs, e.1 = F.party)
    ∧ (F.candidate ≠ "ALL" → ∀ e ∈ topCandidates F locs, e.1 = F.candidate)
    ∧ (F.party = "ALL" →
        (∀ loc ∈ locs, loc.totalVotes = sumVals loc.parties
          ∧ ∀ e ∈ loc.parties, 0 ≤ e.2) →
        ((topParties F locs).map Prod.snd).sum
          ≤ (locs.map (fun l => l.totalVotes)).sum) := by
  refine ⟨⟨?_, ?_⟩, ⟨topTake_pairwise _, topTake_pairwise _⟩,
    fun v => ⟨topTake_filter_sublist _ v, topTake_filter_sublist _ v⟩, ?_, ?_, ?_⟩
  · rw [topParties, List.length_take]
    exact min_le_left _ _
  · rw [topCandidates, List.length_take]
    exact min_le_left _ _
  · intro hne e he
    have hmem : e ∈ partyTotals F locs := topTake_mem _ he
    have hp : passParty F e.1 = true :=
      tally_pass (passParty F) (fun l => l.parties) locs [] (by simp) e hmem
    rcases Bool.or_eq_true_iff.mp hp with h | h
    · exact absurd (of_decide_eq_true h) hne
    · exact (of_decide_eq_true h).symm
  · intro hne e he
    have hmem : e ∈ candidateTotals F locs := topTake_mem _ he
    have hp : passCandidate F e.1 = true :=
      tally_pass (passCandidate F) (fun l => l.candidates) locs [] (by simp) e hmem
    rcases Bool.or_eq_true_iff.mp hp with h | h
    · exact absurd (of_decide_eq_true h) hne
    · exact (of_decide_eq_true h).symm
  · intro hall hinv
    have hn : ∀ e ∈ partyTotals F locs, 0 ≤ e.2 :=
      tally_nonneg (passParty F) (fun l => l.parties) locs
        (fun loc hloc => (hinv loc hloc).2) [] (by simp)
    have h1 : ((topParties F locs).map Prod.snd).sum ≤ sumVals (partyTotals F locs) :=
      topTake_sum_le _ hn
    have h2 : sumVals (partyTotals F locs)
        = (locs.map (fun loc =>
            ((loc.parties.filter (fun e => passParty F e.1)).map Prod.snd).sum)).sum := by
      have := tally_sum (passParty F) (fun l => l.parties) locs []
      simpa [sumVals] using this
    have h3 : (locs.map (fun loc =>
          ((loc.parties.filter (fun e => passParty F e.1)).map Prod.snd).sum)).sum
        = (locs.map (fun l => l.totalVotes)).sum := by
      refine congrArg List.sum (List.map_congr_left (fun loc hloc => ?_))
      have hfilter : loc.parties.filter (fun e => passParty F e.1) = loc.parties :=
        List.filter_eq_self.mpr (fun e _ => by simp [passParty, hall])
      rw [hfilter]
      exact ((hinv loc hloc).1).symm
    rw [h2, h3] at h1
    exact h1

/-- A two-location set with party/candidate tallies for the C4 witness. -/
def analyticsDemo : List LocationData :=
  [{ sampleLoc "A" 10 with
      parties := [("P1", 3), ("P2", 7)], candidates := [("C1", 10)] },
   { sampleLoc "B" 8 with
      parties := [("P2", 1), ("P3", 7)], candidates := [("C2", 8)] }]

/-- Witness for C4 on `analyticsDemo` with the default (all-pass) filter. -/
theorem summarize_top5_witness :
    (topParties defaultFilters analyticsDemo).length ≤ 5
    ∧ ((topParties defaultFilters analyticsDemo).map Prod.snd).sum
        ≤ (analyticsDemo.map (fun l => l.totalVotes)).sum :=
  ⟨(summarize_top5 defaultFilters analyticsDemo).1.1,
   (summarize_top5 defaultFilters analyticsDemo).2.2.2.2.2 rfl (by decide)⟩
